import Mathlib

/-!
# alvori-app: bootstrap entry point and development server

A shallow embedding of `src/ssr/dev-server.js` and `src/entries/app.js`.

* JavaScript strings are lists of characters (`JStr`).
* `String.prototype.replace` with a string pattern is embedded together with the
  substitution rules of ECMA-262 (`GetSubstitution`).
* Response objects record the calls made on them.
* Promise reactions are jobs of an explicit FIFO microtask queue.
-/

namespace Alvori

/-- A JavaScript string, as its sequence of characters. -/
abbrev JStr := List Char

/-- The dollar sign, the escape character of replacement strings. -/
def dollar : Char := Char.ofNat 36

/-- The grave accent, as in the replacement pattern for the text before the match. -/
def graveAccent : Char := Char.ofNat 96

/-- The single quote, as in the replacement pattern for the text after the match. -/
def singleQuote : Char := Char.ofNat 39

/-! ## `String.prototype.replace(searchString, replaceString)` -/

/-- Splits `s` around the first occurrence of `pat` (what `indexOf` finds):
`some (pre, post)` with `s = pre ++ pat ++ post`, or `none` when `pat` does not occur. -/
def splitFirst (pat : JStr) : JStr → Option (JStr × JStr)
  | [] => if pat = [] then some ([], []) else none
  | c :: cs =>
    if pat.isPrefixOf (c :: cs) then some ([], (c :: cs).drop pat.length)
    else
      match splitFirst pat cs with
      | some (pre, post) => some (c :: pre, post)
      | none => none

/-- ECMA-262 `GetSubstitution` for a string pattern (no captures, no named groups):
`$$` gives a dollar sign, `$&` the matched text, dollar-grave the text before the match,
dollar-quote the text after it; a dollar sign followed by anything else (digits and `<`
included, since there is no capture to refer to) stands for itself, and so does the
character after it. -/
def getSubstitution (matched pre post : JStr) : JStr → JStr
  | [] => []
  | c :: rest =>
    if c = dollar then
      match rest with
      | [] => [dollar]
      | d :: rest2 =>
        if d = dollar then dollar :: getSubstitution matched pre post rest2
        else if d = '&' then matched ++ getSubstitution matched pre post rest2
        else if d = graveAccent then pre ++ getSubstitution matched pre post rest2
        else if d = singleQuote then post ++ getSubstitution matched pre post rest2
        else dollar :: d :: getSubstitution matched pre post rest2
    else c :: getSubstitution matched pre post rest

/-- `s.replace(pat, repl)` for strings `pat` and `repl`: only the first occurrence of
`pat` is replaced, and `repl` goes through `getSubstitution`. -/
def jsReplace (s pat repl : JStr) : JStr :=
  match splitFirst pat s with
  | none => s
  | some (pre, post) => pre ++ getSubstitution pat pre post repl ++ post

/-! ## `insertMeta` and the application placeholder (dev-server.js, lines 140-147, 173) -/

/-- The rendered metadata object `meta.data`. -/
structure Meta where
  htmlAttr : JStr
  head : JStr
  bodyAttr : JStr
  body : JStr
deriving DecidableEq, Repr

/-- `insertMeta(meta, tpl)`: four chained `replace` calls, or `tpl` itself when `meta`
is absent. -/
def insertMeta (meta : Option Meta) (tpl : JStr) : JStr :=
  match meta with
  | none => tpl
  | some m =>
    jsReplace
      (jsReplace
        (jsReplace
          (jsReplace tpl "<html".toList ("<html ".toList ++ m.htmlAttr))
          "<head>".toList ("<head>".toList ++ m.head))
        "<body".toList ("<body ".toList ++ m.bodyAttr))
      "</body>".toList (m.body ++ "</body>".toList)

/-- The literal placeholder element of the template. -/
def appPlaceholder : JStr := "<div id=\"app\"></div>".toList

/-- Line 173 of dev-server.js: the placeholder is replaced by the same element wrapping
`appContent`. -/
def spliceApp (template appContent : JStr) : JStr :=
  jsReplace template appPlaceholder ("<div id=\"app\">".toList ++ appContent ++ "</div>".toList)

/-! ## The response object and `render` (dev-server.js, lines 149-179) -/

/-- What a JavaScript call can throw in the code embedded here. -/
inductive Thrown where
  /-- A `TypeError`: a property read on `undefined`, or a call of a non-function. -/
  | typeError
  /-- A `URIError` of `decodeURI`. -/
  | uriError
  /-- The error of the HTTP layer when a header is written after the head was sent. -/
  | headersSent
  /-- An error value handed to the code by a collaborator. -/
  | error (e : JStr)
deriving DecidableEq, Repr

deriving instance DecidableEq for Except

/-- A call made on the response object `res`. -/
inductive ResCall where
  | status (code : Nat)
  | set (field value : JStr)
  | send (body : Option JStr)
  | end_
deriving DecidableEq, Repr

/-- The response object: the calls made on it so far, whether the head has been sent, and
the exception a call has raised. Once a call has raised, the caller is left by the
exception and no later call of the same function body is executed. -/
structure Res where
  calls : List ResCall := []
  headersSent : Bool := false
  thrown : Option Thrown := none
deriving DecidableEq, Repr

/-- `res.status(code)`: sets the status code; it is accepted at any time. -/
def Res.status (r : Res) (code : Nat) : Res :=
  match r.thrown with
  | some _ => r
  | none => { r with calls := r.calls ++ [ResCall.status code] }

/-- `res.set(field, value)`: the HTTP layer refuses it once the head has been sent. -/
def Res.set (r : Res) (field value : JStr) : Res :=
  match r.thrown with
  | some _ => r
  | none =>
    if r.headersSent then
      { r with calls := r.calls ++ [ResCall.set field value], thrown := some Thrown.headersSent }
    else { r with calls := r.calls ++ [ResCall.set field value] }

/-- `res.send(body)`: writes head and body; it sets headers of its own, so it is refused
once the head has been sent. `none` is the value `undefined`. -/
def Res.send (r : Res) (body : Option JStr) : Res :=
  match r.thrown with
  | some _ => r
  | none =>
    if r.headersSent then
      { r with calls := r.calls ++ [ResCall.send body], thrown := some Thrown.headersSent }
    else { r with calls := r.calls ++ [ResCall.send body], headersSent := true }

/-- `res.end()`. -/
def Res.end_ (r : Res) : Res :=
  match r.thrown with
  | some _ => r
  | none => { r with calls := r.calls ++ [ResCall.end_] }

/-- The value of `router.currentRoute._value.name`: a string, a symbol, or `undefined`. -/
inductive RouteName where
  | undefined
  | str (s : JStr)
  | symbol (id : Nat)
deriving DecidableEq, Repr

/-- The object the renderer resolves to, `{ app, router, meta }`: the application (named
by an identifier), the name of the current route, and `meta.data` (`none` when falsy). -/
structure RendererOut where
  app : Nat
  routeName : RouteName
  metaData : Option Meta
deriving DecidableEq, Repr

/-- The rendering context of a request, `{ url: req.url }`. -/
structure Context where
  url : JStr
deriving DecidableEq, Repr

/-- The compiled renderer: the default export of the server bundle, applied to a context.
`Except.error` is a rejection. -/
abbrev Renderer := Context → Except Thrown RendererOut

/-- What a call of `render` leaves behind: the response object, the console lines, and
whether the promise of `render` rejected. -/
structure RenderResult where
  res : Res
  console : List JStr
  rejected : Option Thrown
deriving DecidableEq, Repr

/-- The text of `appContent` interpolated into the template literal of line 173:
`undefined` prints as the nine letters `undefined`. -/
def interpolate : Option JStr → JStr
  | some s => s
  | none => "undefined".toList

/-- The status code chosen at lines 157 and 169-171. -/
def statusCode (name : RouteName) : Nat :=
  if name = RouteName.str "404".toList then 404 else 200

/-- `render(req, res)`, with `template` and `renderer` the values of the two variables of
`serveDevSSR` when they are read, and `renderToString` the serializer of the framework
(`Except.error` is a rejection). -/
def render (template : Option JStr) (renderer : Option Renderer)
    (renderToString : Nat → Except Thrown JStr) (url : JStr) : RenderResult :=
  let res : Res := {}
  match renderer with
  | none => { res := res, console := [], rejected := some Thrown.typeError }
  | some f =>
    match f { url := url } with
    | Except.error e => { res := res, console := [], rejected := some e }
    | Except.ok out =>
      -- lines 159-167: `.then` stores the markup, `.catch` answers 500 and logs
      let afterRender : Option JStr × Res × List JStr :=
        match renderToString out.app with
        | Except.ok result => (some result, res, [])
        | Except.error err =>
          (none, (res.status 500).send (some "500 | Internal Server Error".toList),
            ["error during render : ".toList ++ url,
             match err with
             | Thrown.error e => e
             | _ => []])
      let appContent := afterRender.1
      let res1 := afterRender.2.1
      let console := afterRender.2.2
      match res1.thrown with
      | some t => { res := res1, console := console, rejected := some t }
      | none =>
        let code := statusCode out.routeName
        match template with
        | none => { res := res1, console := console, rejected := some Thrown.typeError }
        | some tpl =>
          let html := spliceApp tpl (interpolate appContent)
          let html2 := insertMeta out.metaData html
          let res2 := (((res1.status code).set "content-type".toList "text/html".toList).send
            (some html2)).end_
          { res := res2, console := console, rejected := res2.thrown }

/-! ## The build coordinator in SPA mode (dev-server.js, lines 15-77) -/

/-- A string is truthy when it is not empty. -/
def truthy (v : JStr) : Bool := !v.isEmpty

/-- What the `done` hook of the client compiler receives: the errors and warnings of the
compilation, and the content of `index.html` that the build left in the output file
system, which is what `cmfs.readFileSync` returns. -/
structure ClientDone where
  errors : List JStr
  warnings : List JStr
  indexHtml : JStr
deriving DecidableEq, Repr

/-- A promise reaction waiting in the microtask queue in SPA mode. -/
inductive SpaJob where
  /-- The rest of the route handler after `await readyPromise` (lines 70-73). -/
  | resumeHandler (req : Nat)
  /-- The rest of the callback given to `setup` after `await tpl` (line 52). -/
  | resumeCb (tpl : JStr)
deriving DecidableEq, Repr

/-- The variables of `serveDevSPA`: `tpl` and the promise inside `setup`, `template`
outside; the handlers suspended on the pending promise; the microtask queue; the
responses written; the calls of the callback given to `setup`; the console. -/
structure SpaState where
  tpl : Option JStr := none
  resolved : Bool := false
  waiting : List Nat := []
  template : Option JStr := none
  queue : List SpaJob := []
  responses : List (Nat × Res) := []
  cbCalls : List JStr := []
  console : List JStr := []
deriving DecidableEq, Repr

/-- `ready()`: the first call fulfils `readyPromise` and queues one reaction for every
suspended handler, in the order they suspended; later calls do nothing. -/
def SpaState.ready (s : SpaState) : SpaState :=
  if s.resolved then s
  else { s with resolved := true, waiting := [],
                queue := s.queue ++ s.waiting.map SpaJob.resumeHandler }

/-- The callback given to `setup` (lines 51-53), `async (tpl) => template = await tpl`:
the call runs up to the `await`, which queues the continuation. -/
def SpaState.cb (s : SpaState) (tpl : JStr) : SpaState :=
  { s with cbCalls := s.cbCalls ++ [tpl], queue := s.queue ++ [SpaJob.resumeCb tpl] }

/-- `update()` of lines 26-31. -/
def SpaState.update (s : SpaState) : SpaState :=
  match s.tpl with
  | some t => if truthy t then s.ready.cb t else s
  | none => s

/-- The `done` hook of lines 35-45. -/
def spaClientDone (s : SpaState) (ev : ClientDone) : SpaState :=
  let s1 := { s with console := s.console ++ ev.errors ++ ev.warnings }
  if ev.errors.length = 0 then ({ s1 with tpl := some ev.indexHtml }).update else s1

/-- The route handler of lines 68-74 up to its `await readyPromise`: on a pending promise
it suspends, on a fulfilled one the continuation is queued at once. -/
def spaRequest (s : SpaState) (req : Nat) : SpaState :=
  if s.resolved then { s with queue := s.queue ++ [SpaJob.resumeHandler req] }
  else { s with waiting := s.waiting ++ [req] }

/-- Runs one reaction. -/
def spaRunJob (s : SpaState) : SpaJob → SpaState
  | SpaJob.resumeHandler req =>
    let res : Res := {}
    { s with responses := s.responses ++
        [(req, (((res.status 200).set "content-type".toList "text/html".toList).send
          s.template).end_)] }
  | SpaJob.resumeCb tpl => { s with template := some tpl }

/-- Runs the microtask queue first-in first-out, for at most `fuel` jobs. -/
def spaDrain : Nat → SpaState → SpaState
  | 0, s => s
  | fuel + 1, s =>
    match s.queue with
    | [] => s
    | job :: rest => spaDrain fuel (spaRunJob { s with queue := rest } job)

/-- What the event loop delivers in SPA mode. -/
inductive SpaEvent where
  | clientDone (ev : ClientDone)
  | request (req : Nat)
deriving DecidableEq, Repr

/-- One turn of the event loop: the callback of the event, then the microtask queue until
it is empty (no job of SPA mode queues another job, so the length of the queue is enough
fuel). -/
def spaTurn (s : SpaState) (ev : SpaEvent) : SpaState :=
  let s1 := match ev with
    | SpaEvent.clientDone e => spaClientDone s e
    | SpaEvent.request req => spaRequest s req
  spaDrain s1.queue.length s1

/-- The events of a run, one turn each, from the state `s`. -/
def spaRun (s : SpaState) (evs : List SpaEvent) : SpaState :=
  evs.foldl spaTurn s

/-! ## The build coordinator in SSR mode (dev-server.js, lines 79-138, 194-197) -/

/-- The `stats` object of the server compiler: `stats.compilation.errors`, and the errors
of `stats.toJson()`. -/
structure Stats where
  compilationErrors : List JStr
  jsonErrors : List JStr
deriving DecidableEq, Repr

/-- What the watch callback of the server compiler receives: `err` (`none` is `null`),
`stats` (`none` is `undefined`), and the content of `server-bundle.js` that
`mfs.readFileSync` returns. -/
structure ServerDone where
  err : Option JStr
  stats : Option Stats
  bundleSrc : JStr
deriving DecidableEq, Repr

/-- A promise reaction waiting in the microtask queue in SSR mode. -/
inductive SsrJob where
  /-- The rest of the route handler after `await readyPromise` (line 196). -/
  | resumeHandler (req : Nat)
  /-- The rest of the callback given to `setup` after `await tpl` (line 136). -/
  | resumeCb1 (bundle tpl : JStr)
  /-- The rest of that callback after `await createRenderer(bundle)` (line 137). -/
  | resumeCb2 (bundle : JStr)
deriving DecidableEq, Repr

/-- The variables of `serveDevSSR`: `bundle`, `tpl` and the promise inside `setup`;
`renderer` (named by the bundle it is the default export of) and `template` outside; the
suspended handlers; the microtask queue; for every call of `render` the values of
`renderer` and `template` at the call; the values of `bundle` and `tpl` at every call of
`ready`; the calls of the callback given to `setup`; the console. -/
structure SsrState where
  bundle : Option JStr := none
  tpl : Option JStr := none
  resolved : Bool := false
  waiting : List Nat := []
  renderer : Option JStr := none
  template : Option JStr := none
  queue : List SsrJob := []
  renderCalls : List (Nat × Option JStr × Option JStr) := []
  readyCalls : List (Option JStr × Option JStr) := []
  cbCalls : List (JStr × JStr) := []
  console : List JStr := []
deriving DecidableEq, Repr

/-- `ready()` in SSR mode. -/
def SsrState.ready (s : SsrState) : SsrState :=
  let s1 := { s with readyCalls := s.readyCalls ++ [(s.bundle, s.tpl)] }
  if s.resolved then s1
  else { s1 with resolved := true, waiting := [],
                 queue := s.queue ++ s.waiting.map SsrJob.resumeHandler }

/-- The callback given to `setup` (lines 135-138): the call runs up to `await tpl`. -/
def SsrState.cb (s : SsrState) (bundle tpl : JStr) : SsrState :=
  { s with cbCalls := s.cbCalls ++ [(bundle, tpl)],
           queue := s.queue ++ [SsrJob.resumeCb1 bundle tpl] }

/-- `update()` of lines 93-98. -/
def SsrState.update (s : SsrState) : SsrState :=
  match s.bundle, s.tpl with
  | some b, some t => if truthy b && truthy t then s.ready.cb b t else s
  | _, _ => s

/-- The `done` hook of the client compiler, lines 102-112. -/
def ssrClientDone (s : SsrState) (ev : ClientDone) : SsrState :=
  let s1 := { s with console := s.console ++ ev.errors ++ ev.warnings }
  if ev.errors.length = 0 then ({ s1 with tpl := some ev.indexHtml }).update else s1

/-- The watch callback of the server compiler, lines 116-127, with what it throws. -/
def serverWatch (s : SsrState) (ev : ServerDone) : SsrState × Option Thrown :=
  match ev.stats with
  | none => (s, some Thrown.typeError)
  | some st =>
    let s1 := if st.compilationErrors.length > 0
      then { s with console := s.console ++ st.compilationErrors } else s
    match ev.err with
    | some e => (s1, some (Thrown.error e))
    | none =>
      if st.jsonErrors.length ≠ 0 then (s1, none)
      else (({ s1 with bundle := some ev.bundleSrc }).update, none)

/-- The route handler of lines 194-197 up to its `await readyPromise`. -/
def ssrRequest (s : SsrState) (req : Nat) : SsrState :=
  if s.resolved then { s with queue := s.queue ++ [SsrJob.resumeHandler req] }
  else { s with waiting := s.waiting ++ [req] }

/-- Runs one reaction. The handler calls `render`, which reads `renderer` at once; the
callback stores `template`, starts `createRenderer(bundle)` and awaits it, then stores
`renderer` (the bundle is taken to evaluate, and its default export is named by the
source of the bundle). -/
def ssrRunJob (s : SsrState) : SsrJob → SsrState
  | SsrJob.resumeHandler req =>
    { s with renderCalls := s.renderCalls ++ [(req, s.renderer, s.template)] }
  | SsrJob.resumeCb1 bundle tpl =>
    { s with template := some tpl, queue := s.queue ++ [SsrJob.resumeCb2 bundle] }
  | SsrJob.resumeCb2 bundle => { s with renderer := some bundle }

/-- Runs the microtask queue first-in first-out, for at most `fuel` jobs. -/
def ssrDrain : Nat → SsrState → SsrState
  | 0, s => s
  | fuel + 1, s =>
    match s.queue with
    | [] => s
    | job :: rest => ssrDrain fuel (ssrRunJob { s with queue := rest } job)

/-- The number of reactions a job of SSR mode stands for: itself and those it queues. -/
def ssrJobWeight : SsrJob → Nat
  | SsrJob.resumeCb1 _ _ => 2
  | _ => 1

/-- The number of reactions a queue of SSR mode stands for. -/
def ssrQueueWeight (queue : List SsrJob) : Nat := (queue.map ssrJobWeight).sum

/-- What the event loop delivers in SSR mode. -/
inductive SsrEvent where
  | clientDone (ev : ClientDone)
  | serverDone (ev : ServerDone)
  | request (req : Nat)
deriving DecidableEq, Repr

/-- One turn of the event loop: the callback of the event and, unless it threw, the
microtask queue until it is empty (a job queues at most one job, which queues none, so
twice the length of the queue is enough fuel). -/
def ssrTurn (s : SsrState) (ev : SsrEvent) : SsrState × Option Thrown :=
  let r : SsrState × Option Thrown := match ev with
    | SsrEvent.clientDone e => (ssrClientDone s e, none)
    | SsrEvent.serverDone e => serverWatch s e
    | SsrEvent.request req => (ssrRequest s req, none)
  match r.2 with
  | some t => (r.1, some t)
  | none => (ssrDrain (2 * r.1.queue.length) r.1, none)

/-- The events of a run, one turn each, from the state `s`; an exception that leaves the
watch callback ends the process, and with it the run. -/
def ssrRun (s : SsrState) : List SsrEvent → SsrState
  | [] => s
  | ev :: evs =>
    match ssrTurn s ev with
    | (s1, some _) => s1
    | (s1, none) => ssrRun s1 evs

/-! ## `decodeURI` (ECMA-262, `Decode` with the reserved set of `decodeURI`) -/

/-- The value of a hexadecimal digit. -/
def hexVal (c : Char) : Option Nat :=
  if 48 ≤ c.toNat ∧ c.toNat ≤ 57 then some (c.toNat - 48)
  else if 97 ≤ c.toNat ∧ c.toNat ≤ 102 then some (c.toNat - 87)
  else if 65 ≤ c.toNat ∧ c.toNat ≤ 70 then some (c.toNat - 55)
  else none

/-- Reads one escape `%XY` at the head of `s`: the octet and the rest of `s`. -/
def parseHexOctet : JStr → Option (Nat × JStr)
  | p :: h1 :: h2 :: rest =>
    if p = '%' then
      match hexVal h1, hexVal h2 with
      | some a, some b => some (16 * a + b, rest)
      | _, _ => none
    else none
  | _ => none

/-- Reads `n` escapes one after the other. -/
def readOctets : Nat → JStr → Option (List Nat × JStr)
  | 0, s => some ([], s)
  | n + 1, s =>
    match parseHexOctet s with
    | none => none
    | some (b, rest) =>
      match readOctets n rest with
      | none => none
      | some (bs, rest2) => some (b :: bs, rest2)

/-- The number of leading one bits of an octet (5 stands for five or more). -/
def leadingOnes (b : Nat) : Nat :=
  if b < 128 then 0 else if b < 192 then 1 else if b < 224 then 2
  else if b < 240 then 3 else if b < 248 then 4 else 5

/-- The code point of a well-formed UTF-8 sequence of `n` octets with first octet `b` and
continuation octets `conts`; `none` for continuation octets outside `80..BF`, overlong
forms, surrogates and values above `10FFFF`. -/
def utf8CodePoint (n b : Nat) (conts : List Nat) : Option Nat :=
  if conts.all (fun c => decide (128 ≤ c ∧ c < 192)) then
    let lead := if n = 2 then b - 192 else if n = 3 then b - 224 else b - 240
    let v := conts.foldl (fun acc c => acc * 64 + (c - 128)) lead
    let least := if n = 2 then 128 else if n = 3 then 2048 else 65536
    if least ≤ v ∧ v ≤ 1114111 ∧ ¬ (55296 ≤ v ∧ v ≤ 57343) then some v else none
  else none

/-- The characters `decodeURI` keeps escaped. -/
def uriReservedPlusHash : JStr := ";/?:@&=+$,#".toList

/-- The loop of `Decode`; every round consumes at least one character, so the length of
the string is enough `fuel`. -/
def decodeLoop : Nat → JStr → Except Thrown JStr
  | _, [] => Except.ok []
  | 0, _ :: _ => Except.error Thrown.uriError
  | fuel + 1, c :: rest =>
    if c = '%' then
      match parseHexOctet (c :: rest) with
      | none => Except.error Thrown.uriError
      | some (b, rest1) =>
        let n := leadingOnes b
        if n = 0 then
          let s := if uriReservedPlusHash.contains (Char.ofNat b)
            then (c :: rest).take 3 else [Char.ofNat b]
          match decodeLoop fuel rest1 with
          | Except.ok r => Except.ok (s ++ r)
          | Except.error e => Except.error e
        else if n = 1 ∨ n > 4 then Except.error Thrown.uriError
        else
          match readOctets (n - 1) rest1 with
          | none => Except.error Thrown.uriError
          | some (conts, rest2) =>
            match utf8CodePoint n b conts with
            | none => Except.error Thrown.uriError
            | some v =>
              match decodeLoop fuel rest2 with
              | Except.ok r => Except.ok (Char.ofNat v :: r)
              | Except.error e => Except.error e
    else
      match decodeLoop fuel rest with
      | Except.ok r => Except.ok (c :: r)
      | Except.error e => Except.error e

/-- `decodeURI(s)`: the decoded string, or the `URIError` it throws. -/
def decodeURI (s : JStr) : Except Thrown JStr := decodeLoop s.length s

/-! ## The boot-entry loop of the entry point (app.js, lines 32-67) -/

/-- A JavaScript value, as far as the truthiness test of lines 44 and 48 tells values
apart: `undefined`, `null`, a boolean, an integer number, `NaN`, a string, or any other
value (objects, arrays, functions, symbols, other numbers), all of which are truthy. -/
inductive JsValue where
  | undefined
  | null
  | bool (b : Bool)
  | number (n : Int)
  | nan
  | str (s : JStr)
  | other
deriving DecidableEq, Repr

/-- Truthiness: `undefined`, `null`, `false`, zero, `NaN` and the empty string are falsy,
every other value is truthy. -/
def JsValue.truthy : JsValue → Bool
  | JsValue.undefined => false
  | JsValue.null => false
  | JsValue.bool b => b
  | JsValue.number n => decide (n ≠ 0)
  | JsValue.nan => false
  | JsValue.str s => !s.isEmpty
  | JsValue.other => true

/-- An entry of `__ALVORI_BOOT__`, by the branch `typeof entry` selects: a string, which is
the path; an object, with `p` the text of `entry.path` in the import and with the values
of its own properties `server` and `client` (`none` when the object has no such own
property); `null`, whose `typeof` is `object` too; or a value of any other type. -/
inductive BootEntry where
  | path (p : JStr)
  | object (p : JStr) (server client : Option JsValue)
  | null
  | other
deriving DecidableEq, Repr

/-- How the handler of an entry ends: it invokes the default export of the module at
`path`, which receives `ctx` with the given `url` (`none` when `ctx` is `undefined`); or
it ends without a module; or its promise rejects with what was thrown, by `decodeURI` or
by the property read on `null`. -/
inductive Outcome where
  | invoked (path : JStr) (url : Option JStr)
  | skipped
  | rejected (t : Thrown)
deriving DecidableEq, Repr

/-- The variable `ctx`, shared by the handlers of all entries: `none` for `undefined`,
else the `url` of the object it refers to; the dynamic imports started so far; and how
the handlers that have finished ended. -/
structure BootState where
  ctx : Option JStr
  imports : List JStr := []
  outcomes : List (BootEntry × Outcome) := []
deriving DecidableEq, Repr

/-- The path an entry passes to `registerModule` before its handler suspends on the import
(lines 39-49), or `none` when the handler goes on without an `await`: an object entry
with the own property of the side awaits the import when the value of the property is
truthy. -/
def awaitedImport (isSSR : Bool) : BootEntry → Option JStr
  | BootEntry.path p => some p
  | BootEntry.object p server client =>
    match (if isSSR then server else client) with
    | none => some p
    | some flag => if flag.truthy then some p else none
  | BootEntry.null => none
  | BootEntry.other => none

/-- Lines 57-65: `ctx.url` is decoded in place when `ctx` is set, then the default
export is invoked when there is a `module` (named by its path). A `URIError` of
`decodeURI` rejects the promise of the handler before the call. -/
def decodeAndInvoke (entry : BootEntry) (module : Option JStr) (s : BootState) : BootState :=
  match s.ctx with
  | none =>
    { s with outcomes := s.outcomes ++
        [(entry, match module with
          | some m => Outcome.invoked m none
          | none => Outcome.skipped)] }
  | some url =>
    match decodeURI url with
    | Except.error t => { s with outcomes := s.outcomes ++ [(entry, Outcome.rejected t)] }
    | Except.ok decoded =>
      { s with ctx := some decoded, outcomes := s.outcomes ++
          [(entry, match module with
            | some m => Outcome.invoked m (some decoded)
            | none => Outcome.skipped)] }

/-- The rest of the handler once it does not wait for an import any more, with `module`
the imported module or `none`. For `null` the call `entry.hasOwnProperty` of line 43 or
47 throws a `TypeError`, and the promise of the handler rejects before line 51. On the
client an object entry first sets `ctx` to a new object holding `document.documentURI`
(lines 51-53). Then lines 57-65 run. -/
def finishHandler (isSSR : Bool) (documentURI : JStr) (entry : BootEntry)
    (module : Option JStr) (s : BootState) : BootState :=
  match entry with
  | BootEntry.null =>
    { s with outcomes := s.outcomes ++ [(entry, Outcome.rejected Thrown.typeError)] }
  | BootEntry.object _ _ _ =>
    decodeAndInvoke entry module (if isSSR then s else { s with ctx := some documentURI })
  | _ => decodeAndInvoke entry module s

/-- The `forEach` of line 33: every handler runs up to its first `await`. A handler that
awaits an import is returned as suspended; the others run to their end at once. -/
def forEachBoot (isSSR : Bool) (documentURI : JStr) :
    List BootEntry → BootState → BootState × List BootEntry
  | [], s => (s, [])
  | entry :: rest, s =>
    match awaitedImport isSSR entry with
    | some p =>
      let r := forEachBoot isSSR documentURI rest { s with imports := s.imports ++ [p] }
      (r.1, entry :: r.2)
    | none => forEachBoot isSSR documentURI rest (finishHandler isSSR documentURI entry none s)

/-- The suspended handlers resume, one after the other in the order given, each with the
module it imported. -/
def resumeAll (isSSR : Bool) (documentURI : JStr) : List BootEntry → BootState → BootState
  | [], s => s
  | entry :: rest, s =>
    resumeAll isSSR documentURI rest
      (finishHandler isSSR documentURI entry (awaitedImport isSSR entry) s)

/-- The loop of lines 32-67, run to the end: the `forEach`, then the suspended handlers in
the order in which they suspended. `ctx` is the argument of the exported function. -/
def bootRun (isSSR : Bool) (documentURI : JStr) (ctx : Option JStr)
    (boot : List BootEntry) : BootState :=
  let r := forEachBoot isSSR documentURI boot { ctx := ctx }
  resumeAll isSSR documentURI r.2 r.1

/-- Whether `decodeURI` returns on `url`, that is, does not throw. -/
def decodes (url : JStr) : Bool :=
  match decodeURI url with
  | Except.ok _ => true
  | Except.error _ => false

/-- Whether `decodeURI` returns on `url` with a text that a further `decodeURI` returns
unchanged. -/
def decodeStable (url : JStr) : Bool :=
  match decodeURI url with
  | Except.ok decoded => decide (decodeURI decoded = Except.ok decoded)
  | Except.error _ => false

/-- The output of a client build that completed with zero errors: the `index.html` it
left in the output file system. -/
def clientOutput : SsrEvent → Option JStr
  | SsrEvent.clientDone ev => if ev.errors.length = 0 then some ev.indexHtml else none
  | _ => none

/-- The output of a server build that completed with zero errors: the bundle it left in
the output file system. -/
def serverOutput : SsrEvent → Option JStr
  | SsrEvent.serverDone ev =>
    match ev.err, ev.stats with
    | none, some st => if st.jsonErrors.length = 0 then some ev.bundleSrc else none
    | _, _ => none
  | _ => none

/-- The value `v` is the output of one of the builds `past` that `output` recognises. -/
def BuiltBy (output : SsrEvent → Option JStr) (past : List SsrEvent) (v : Option JStr) : Prop :=
  ∃ e ∈ past, ∃ x, output e = some x ∧ v = some x

/-- The invariant of the coordinator in SSR mode, relative to the events delivered so
far: `bundle` and `tpl` hold outputs of builds without errors, every call of `ready` saw
both of them set, and the gate is resolved only after a call of `ready`. -/
def SsrInv (past : List SsrEvent) (s : SsrState) : Prop :=
  (s.bundle = none ∨ BuiltBy serverOutput past s.bundle) ∧
  (s.tpl = none ∨ BuiltBy clientOutput past s.tpl) ∧
  (∀ bt ∈ s.readyCalls, BuiltBy serverOutput past bt.1 ∧ BuiltBy clientOutput past bt.2) ∧
  (s.resolved = true → s.readyCalls ≠ [])

/-- How a handler may end, given its entry and the module it imported: rejected by the
property read on `null`; or rejected by `decodeURI`; or without a call when there is no
module; or with the call of the default export of the module. -/
def EndsWell (entry : BootEntry) (module : Option JStr) (o : Outcome) : Prop :=
  (entry = BootEntry.null ∧ o = Outcome.rejected Thrown.typeError) ∨
  (entry ≠ BootEntry.null ∧
    ((∃ t, o = Outcome.rejected t) ∨ (module = none ∧ o = Outcome.skipped) ∨
      (∃ p url, module = some p ∧ o = Outcome.invoked p url)))

/-- No handler of an entry other than `null` has ended with a rejection. -/
def NoneRejected (outcomes : List (BootEntry × Outcome)) : Prop :=
  ∀ eo ∈ outcomes, eo.1 ≠ BootEntry.null → ∀ t, eo.2 ≠ Outcome.rejected t

/-! ## Theorems: the microtask queues are run to the end, and `decodeURI` terminates -/

/-- A reaction of SPA mode queues nothing. -/
theorem spaRunJob_queue (s : SpaState) (job : SpaJob) : (spaRunJob s job).queue = s.queue := by
  cases job <;> rfl

/-- With as much fuel as there are jobs, the queue of SPA mode is run until it is empty. -/
theorem spaDrain_queue (fuel : Nat) : ∀ s : SpaState, s.queue.length ≤ fuel →
    (spaDrain fuel s).queue = [] := by
  induction fuel with
  | zero =>
    intro s h
    exact List.length_eq_zero.mp (Nat.le_zero.mp h)
  | succ n ih =>
    intro s h
    unfold spaDrain
    cases hq : s.queue with
    | nil => simpa using hq
    | cons job rest =>
      simp only
      apply ih
      rw [spaRunJob_queue]
      rw [hq] at h
      simpa using h

/-- Every turn of the event loop in SPA mode ends with an empty microtask queue. -/
theorem spaTurn_queue (s : SpaState) (ev : SpaEvent) : (spaTurn s ev).queue = [] := by
  unfold spaTurn
  exact spaDrain_queue _ _ (Nat.le_refl _)

/-- Running the first job of a queue lowers the weight of the queue by one. -/
theorem ssrRunJob_weight (s : SsrState) (job : SsrJob) (rest : List SsrJob) :
    ssrQueueWeight (ssrRunJob { s with queue := rest } job).queue + 1
      = ssrQueueWeight (job :: rest) := by
  cases job <;> simp [ssrRunJob, ssrQueueWeight, ssrJobWeight] <;> omega

/-- With as much fuel as the weight of the queue, the queue of SSR mode is run until it
is empty. -/
theorem ssrDrain_queue (fuel : Nat) : ∀ s : SsrState, ssrQueueWeight s.queue ≤ fuel →
    (ssrDrain fuel s).queue = [] := by
  induction fuel with
  | zero =>
    intro s h
    cases hq : s.queue with
    | nil => simpa [ssrDrain] using hq
    | cons job rest =>
      rw [hq] at h
      cases job <;> simp [ssrQueueWeight, ssrJobWeight] at h
  | succ n ih =>
    intro s h
    unfold ssrDrain
    cases hq : s.queue with
    | nil => simpa using hq
    | cons job rest =>
      simp only
      apply ih
      have hw := ssrRunJob_weight s job rest
      rw [hq] at h
      omega

/-- The weight of a queue is at most twice its length. -/
theorem ssrQueueWeight_le (queue : List SsrJob) : ssrQueueWeight queue ≤ 2 * queue.length := by
  induction queue with
  | nil => simp [ssrQueueWeight]
  | cons job rest ih =>
    have : ssrQueueWeight (job :: rest) = ssrJobWeight job + ssrQueueWeight rest := by
      simp [ssrQueueWeight]
    rw [this]
    cases job <;> simp [ssrJobWeight] <;> omega

/-- Every turn of the event loop in SSR mode that does not throw ends with an empty
microtask queue. -/
theorem ssrTurn_queue (s : SsrState) (ev : SsrEvent) (h : (ssrTurn s ev).2 = none) :
    (ssrTurn s ev).1.queue = [] := by
  have key : ∀ r : SsrState × Option Thrown,
      (match r.2 with
        | some t => (r.1, some t)
        | none => (ssrDrain (2 * r.1.queue.length) r.1, (none : Option Thrown))).2 = none →
      (match r.2 with
        | some t => (r.1, some t)
        | none => (ssrDrain (2 * r.1.queue.length) r.1, (none : Option Thrown))).1.queue
        = [] := by
    intro r hr
    cases h2 : r.2 with
    | some t => rw [h2] at hr; cases hr
    | none => exact ssrDrain_queue _ _ (ssrQueueWeight_le _)
  unfold ssrTurn at h ⊢
  exact key _ h

/-- An escape is three characters long. -/
theorem parseHexOctet_length {s rest : JStr} {b : Nat}
    (h : parseHexOctet s = some (b, rest)) : rest.length + 3 = s.length := by
  unfold parseHexOctet at h
  split at h
  · split at h
    · split at h
      · simp only [Option.some.injEq, Prod.mk.injEq] at h
        rw [← h.2]
        simp
      · simp at h
    · simp at h
  · simp at h

/-- Reading escapes does not lengthen the string. -/
theorem readOctets_length : ∀ (n : Nat) (s : JStr) (bs : List Nat) (rest : JStr),
    readOctets n s = some (bs, rest) → rest.length ≤ s.length := by
  intro n
  induction n with
  | zero =>
    intro s bs rest h
    simp [readOctets] at h
    rw [h.2]
  | succ n ih =>
    intro s bs rest h
    unfold readOctets at h
    split at h
    · cases h
    · rename_i b rest1 hp
      split at h
      · cases h
      · rename_i bs2 rest2 hr
        cases h
        have h1 := parseHexOctet_length hp
        have h2 := ih _ _ _ hr
        omega

/-- The loop of `decodeURI` never runs out of fuel: any fuel that is at least the length
of the string gives the same result. -/
theorem decodeLoop_fuel (fuel1 : Nat) : ∀ (fuel2 : Nat) (s : JStr),
    s.length ≤ fuel1 → s.length ≤ fuel2 → decodeLoop fuel1 s = decodeLoop fuel2 s := by
  induction fuel1 with
  | zero =>
    intro fuel2 s h1 _
    have hs : s = [] := List.length_eq_zero.mp (Nat.le_zero.mp h1)
    subst hs
    cases fuel2 <;> rfl
  | succ n ih =>
    intro fuel2 s h1 h2
    cases s with
    | nil => cases fuel2 <;> rfl
    | cons c rest =>
      cases fuel2 with
      | zero => simp at h2
      | succ m =>
        have hrest : rest.length ≤ n ∧ rest.length ≤ m := by
          simp only [List.length_cons] at h1 h2
          omega
        have e0 : decodeLoop n rest = decodeLoop m rest := ih m rest hrest.1 hrest.2
        have e1 : ∀ b rest1, parseHexOctet (c :: rest) = some (b, rest1) →
            decodeLoop n rest1 = decodeLoop m rest1 := by
          intro b rest1 hp
          have hl := parseHexOctet_length hp
          simp only [List.length_cons] at hl
          exact ih m rest1 (by omega) (by omega)
        have e2 : ∀ b rest1 k conts rest2, parseHexOctet (c :: rest) = some (b, rest1) →
            readOctets k rest1 = some (conts, rest2) →
            decodeLoop n rest2 = decodeLoop m rest2 := by
          intro b rest1 k conts rest2 hp hr
          have hl := parseHexOctet_length hp
          have hl2 := readOctets_length _ _ _ _ hr
          simp only [List.length_cons] at hl
          exact ih m rest2 (by omega) (by omega)
        unfold decodeLoop
        split
        · cases hp : parseHexOctet (c :: rest) with
          | none => rfl
          | some br =>
            obtain ⟨b, rest1⟩ := br
            simp only
            split
            · rw [e1 b rest1 hp]
            · split
              · rfl
              · cases hr : readOctets (leadingOnes b - 1) rest1 with
                | none => rfl
                | some cr =>
                  obtain ⟨conts, rest2⟩ := cr
                  simp only
                  rw [e2 b rest1 _ conts rest2 hp hr]
        · rw [e0]

/-- `decodeURI` with more fuel than the length of the string is `decodeURI`. -/
theorem decodeURI_fuel (fuel : Nat) (s : JStr) (h : s.length ≤ fuel) :
    decodeLoop fuel s = decodeURI s :=
  decodeLoop_fuel fuel s.length s h (Nat.le_refl _)

/-- C1 (fails on the code). In SPA mode a request whose handler suspended on the gate
before the first build without errors (here: after a build with an error) is answered
with `res.send(undefined)`: `ready()` queues the handler before the callback of `setup`
has stored `template`. In SSR mode `render` is called for such a request (here: one that
arrived between the client build and the server build) while `renderer` and `template`
are both still `undefined`. In both modes the variables are set once the queue has been
run. -/
theorem first_request_resumes_before_cache_is_stored :
    (spaRun {} [SpaEvent.clientDone ⟨["syntax error".toList], [], "".toList⟩,
        SpaEvent.request 1,
        SpaEvent.clientDone ⟨[], [], "<html></html>".toList⟩]).responses
      = [(1, { calls := [ResCall.status 200,
                         ResCall.set "content-type".toList "text/html".toList,
                         ResCall.send none, ResCall.end_],
               headersSent := true, thrown := none })]
    ∧ (spaRun {} [SpaEvent.clientDone ⟨["syntax error".toList], [], "".toList⟩,
        SpaEvent.request 1,
        SpaEvent.clientDone ⟨[], [], "<html></html>".toList⟩]).template
      = some "<html></html>".toList
    ∧ (spaRun {} [SpaEvent.clientDone ⟨["syntax error".toList], [], "".toList⟩,
        SpaEvent.request 1,
        SpaEvent.clientDone ⟨[], [], "<html></html>".toList⟩]).queue = []
    ∧ (ssrRun {} [SsrEvent.clientDone ⟨[], [], "<html></html>".toList⟩,
        SsrEvent.request 1,
        SsrEvent.serverDone ⟨none, some ⟨[], []⟩, "bundle".toList⟩]).renderCalls
      = [(1, none, none)]
    ∧ (ssrRun {} [SsrEvent.clientDone ⟨[], [], "<html></html>".toList⟩,
        SsrEvent.request 1,
        SsrEvent.serverDone ⟨none, some ⟨[], []⟩, "bundle".toList⟩]).template
      = some "<html></html>".toList
    ∧ (ssrRun {} [SsrEvent.clientDone ⟨[], [], "<html></html>".toList⟩,
        SsrEvent.request 1,
        SsrEvent.serverDone ⟨none, some ⟨[], []⟩, "bundle".toList⟩]).renderer
      = some "bundle".toList
    ∧ (ssrRun {} [SsrEvent.clientDone ⟨[], [], "<html></html>".toList⟩,
        SsrEvent.request 1,
        SsrEvent.serverDone ⟨none, some ⟨[], []⟩, "bundle".toList⟩]).queue = [] := by
  decide

/-- C9 (fails on the code). Called with an error and with `stats` undefined, the watch
callback of the server compiler throws the `TypeError` of `stats.compilation` at line
117, not the error it was given; the state is left as it was. -/
theorem server_watch_fatal_error_without_stats (s : SsrState) (e src : JStr) :
    serverWatch s ⟨some e, none, src⟩ = (s, some Thrown.typeError)
    ∧ Thrown.typeError ≠ Thrown.error e := by
  constructor
  · rfl
  · intro h
    cases h

/-- C2. A build-completion event that reports at least one error (the `done` hook of the
client compiler in SPA and in SSR mode, the watch callback of the server compiler with a
`stats` whose JSON form lists an error) leaves `tpl`, `bundle`, `template` and `renderer`
as they were, does not call the callback given to `setup`, and queues nothing. -/
theorem failed_build_keeps_cache :
    (∀ (s : SpaState) (ev : ClientDone), 0 < ev.errors.length →
      (spaClientDone s ev).tpl = s.tpl ∧ (spaClientDone s ev).template = s.template ∧
      (spaClientDone s ev).cbCalls = s.cbCalls ∧ (spaClientDone s ev).queue = s.queue ∧
      (spaClientDone s ev).resolved = s.resolved) ∧
    (∀ (s : SsrState) (ev : ClientDone), 0 < ev.errors.length →
      (ssrClientDone s ev).tpl = s.tpl ∧ (ssrClientDone s ev).bundle = s.bundle ∧
      (ssrClientDone s ev).template = s.template ∧ (ssrClientDone s ev).renderer = s.renderer ∧
      (ssrClientDone s ev).cbCalls = s.cbCalls ∧ (ssrClientDone s ev).queue = s.queue ∧
      (ssrClientDone s ev).resolved = s.resolved) ∧
    (∀ (s : SsrState) (ev : ServerDone) (st : Stats), ev.stats = some st →
      0 < st.jsonErrors.length →
      (serverWatch s ev).1.tpl = s.tpl ∧ (serverWatch s ev).1.bundle = s.bundle ∧
      (serverWatch s ev).1.template = s.template ∧
      (serverWatch s ev).1.renderer = s.renderer ∧
      (serverWatch s ev).1.cbCalls = s.cbCalls ∧ (serverWatch s ev).1.queue = s.queue ∧
      (serverWatch s ev).1.resolved = s.resolved) := by
  refine ⟨?_, ?_, ?_⟩
  · intro s ev h
    have h0 : ev.errors.length ≠ 0 := Nat.pos_iff_ne_zero.mp h
    simp [spaClientDone, h0]
  · intro s ev h
    have h0 : ev.errors.length ≠ 0 := Nat.pos_iff_ne_zero.mp h
    simp [ssrClientDone, h0]
  · intro s ev st hst h
    have h0 : st.jsonErrors.length ≠ 0 := Nat.pos_iff_ne_zero.mp h
    unfold serverWatch
    rw [hst]
    cases ev.err <;> by_cases hc : st.compilationErrors.length > 0 <;> simp [h0, hc]

/-- The witness of `failed_build_keeps_cache`: a client build with one error, and a server
build whose JSON form lists one error, after both builds had succeeded once. -/
theorem failed_build_keeps_cache_witness :
    (spaClientDone { tpl := some "old".toList, template := some "old".toList }
        ⟨["e".toList], [], "new".toList⟩).tpl = some "old".toList
    ∧ (serverWatch { bundle := some "old".toList, tpl := some "t".toList }
        ⟨none, some ⟨["e".toList], ["e".toList]⟩, "new".toList⟩).1.bundle
      = some "old".toList :=
  ⟨(failed_build_keeps_cache.1 { tpl := some "old".toList, template := some "old".toList }
      ⟨["e".toList], [], "new".toList⟩ (by decide)).1,
   (failed_build_keeps_cache.2.2 { bundle := some "old".toList, tpl := some "t".toList }
      ⟨none, some ⟨["e".toList], ["e".toList]⟩, "new".toList⟩ ⟨["e".toList], ["e".toList]⟩
      rfl (by decide)).2.1⟩

/-- A build recognised among `past` is recognised among any longer list of events. -/
theorem builtBy_mono {output : SsrEvent → Option JStr} {past more : List SsrEvent}
    {v : Option JStr} (h : BuiltBy output past v) : BuiltBy output (past ++ more) v := by
  obtain ⟨e, he, x, hx, hv⟩ := h
  exact ⟨e, List.mem_append_left _ he, x, hx, hv⟩

/-- The invariant survives the delivery of further events that leave the state alone. -/
theorem ssrInv_mono {past more : List SsrEvent} {s : SsrState} (h : SsrInv past s) :
    SsrInv (past ++ more) s := by
  obtain ⟨hb, ht, hr, hg⟩ := h
  refine ⟨hb.imp id builtBy_mono, ht.imp id builtBy_mono, ?_, hg⟩
  intro bt hbt
  exact ⟨builtBy_mono (hr bt hbt).1, builtBy_mono (hr bt hbt).2⟩

/-- The invariant only reads `bundle`, `tpl`, `readyCalls` and `resolved`. -/
theorem ssrInv_congr {past : List SsrEvent} {s s2 : SsrState} (h : SsrInv past s)
    (hb : s2.bundle = s.bundle) (ht : s2.tpl = s.tpl) (hr : s2.readyCalls = s.readyCalls)
    (hg : s2.resolved = s.resolved) : SsrInv past s2 := by
  unfold SsrInv
  rw [hb, ht, hr, hg]
  exact h

/-- A reaction changes none of `bundle`, `tpl`, `readyCalls`, `resolved`. -/
theorem ssrRunJob_frame (s : SsrState) (job : SsrJob) :
    (ssrRunJob s job).bundle = s.bundle ∧ (ssrRunJob s job).tpl = s.tpl ∧
    (ssrRunJob s job).readyCalls = s.readyCalls ∧ (ssrRunJob s job).resolved = s.resolved := by
  cases job <;> simp [ssrRunJob]

/-- Running the microtask queue changes none of `bundle`, `tpl`, `readyCalls`,
`resolved`. -/
theorem ssrDrain_frame (fuel : Nat) (s : SsrState) :
    (ssrDrain fuel s).bundle = s.bundle ∧ (ssrDrain fuel s).tpl = s.tpl ∧
    (ssrDrain fuel s).readyCalls = s.readyCalls ∧ (ssrDrain fuel s).resolved = s.resolved := by
  induction fuel generalizing s with
  | zero => simp [ssrDrain]
  | succ n ih =>
    unfold ssrDrain
    cases hq : s.queue with
    | nil => simp
    | cons job rest =>
      simp only
      obtain ⟨h1, h2, h3, h4⟩ := ih (ssrRunJob { s with queue := rest } job)
      obtain ⟨j1, j2, j3, j4⟩ := ssrRunJob_frame { s with queue := rest } job
      exact ⟨h1.trans j1, h2.trans j2, h3.trans j3, h4.trans j4⟩

/-- `update()` keeps the invariant: `ready` is called only with `bundle` and `tpl` set. -/
theorem ssrInv_update {past : List SsrEvent} {s : SsrState} (h : SsrInv past s) :
    SsrInv past s.update := by
  cases hbu : s.bundle with
  | none =>
    have hu : s.update = s := by simp [SsrState.update, hbu]
    rw [hu]; exact h
  | some b =>
    cases htp : s.tpl with
    | none =>
      have hu : s.update = s := by simp [SsrState.update, hbu, htp]
      rw [hu]; exact h
    | some t =>
      have hu : s.update = if truthy b && truthy t then s.ready.cb b t else s := by
        simp [SsrState.update, hbu, htp]
      rw [hu]
      obtain ⟨hb, ht, hr, hg⟩ := h
      split
      · have hb2 : BuiltBy serverOutput past (some b) := by
          rcases hb with hb | hb
          · rw [hbu] at hb; cases hb
          · rw [hbu] at hb; exact hb
        have ht2 : BuiltBy clientOutput past (some t) := by
          rcases ht with ht | ht
          · rw [htp] at ht; cases ht
          · rw [htp] at ht; exact ht
        refine ⟨?_, ?_, ?_, ?_⟩
        · right
          by_cases hres : s.resolved <;> simp [SsrState.cb, SsrState.ready, hres, hbu, hb2]
        · right
          by_cases hres : s.resolved <;> simp [SsrState.cb, SsrState.ready, hres, htp, ht2]
        · intro bt hbt
          have hmem : bt ∈ s.readyCalls ∨ bt = (some b, some t) := by
            by_cases hres : s.resolved <;>
              simpa [SsrState.cb, SsrState.ready, hres, hbu, htp] using hbt
          rcases hmem with hmem | hmem
          · exact hr bt hmem
          · rw [hmem]; exact ⟨hb2, ht2⟩
        · intro _
          by_cases hres : s.resolved <;> simp [SsrState.cb, SsrState.ready, hres]
      · exact ⟨hb, ht, hr, hg⟩

/-- The `done` hook of the client compiler keeps the invariant. -/
theorem ssrInv_clientDone {past : List SsrEvent} {s : SsrState} (h : SsrInv past s)
    (e : ClientDone) (hmem : SsrEvent.clientDone e ∈ past) :
    SsrInv past (ssrClientDone s e) := by
  unfold ssrClientDone
  simp only
  split
  · rename_i h0
    apply ssrInv_update
    obtain ⟨hb, _, hr, hg⟩ := h
    refine ⟨hb, Or.inr ⟨SsrEvent.clientDone e, hmem, e.indexHtml, ?_, rfl⟩, hr, hg⟩
    simp [clientOutput, h0]
  · exact ssrInv_congr h rfl rfl rfl rfl

/-- The watch callback of the server compiler keeps the invariant. -/
theorem ssrInv_serverWatch {past : List SsrEvent} {s : SsrState} (h : SsrInv past s)
    (e : ServerDone) (hmem : SsrEvent.serverDone e ∈ past) :
    SsrInv past (serverWatch s e).1 := by
  unfold serverWatch
  cases hst : e.stats with
  | none => exact h
  | some st =>
    simp only
    have hm1 : SsrInv past (if st.compilationErrors.length > 0
        then ({ s with console := s.console ++ st.compilationErrors } : SsrState) else s) := by
      split
      · exact ssrInv_congr h rfl rfl rfl rfl
      · exact h
    generalize (if st.compilationErrors.length > 0
        then ({ s with console := s.console ++ st.compilationErrors } : SsrState) else s) = s1
      at hm1 ⊢
    cases herr : e.err with
    | some x => exact hm1
    | none =>
      simp only
      split
      · exact hm1
      · rename_i h0
        apply ssrInv_update
        obtain ⟨_, ht, hr, hg⟩ := hm1
        refine ⟨Or.inr ⟨SsrEvent.serverDone e, hmem, e.bundleSrc, ?_, rfl⟩, ht, hr, hg⟩
        have h00 : st.jsonErrors.length = 0 := by simpa using h0
        simp [serverOutput, herr, hst, h00]

/-- One turn of the event loop keeps the invariant, the event being added to the past. -/
theorem ssrInv_turn {past : List SsrEvent} {s : SsrState} (h : SsrInv past s)
    (ev : SsrEvent) : SsrInv (past ++ [ev]) (ssrTurn s ev).1 := by
  have hm : SsrInv (past ++ [ev]) s := ssrInv_mono h
  have key : ∀ r : SsrState × Option Thrown, SsrInv (past ++ [ev]) r.1 →
      SsrInv (past ++ [ev])
        (match r.2 with
          | some t => (r.1, some t)
          | none => (ssrDrain (2 * r.1.queue.length) r.1, none)).1 := by
    intro r hr
    cases r.2 with
    | some t => exact hr
    | none =>
      obtain ⟨d1, d2, d3, d4⟩ := ssrDrain_frame (2 * r.1.queue.length) r.1
      exact ssrInv_congr hr d1 d2 d3 d4
  unfold ssrTurn
  apply key
  cases ev with
  | clientDone e => exact ssrInv_clientDone hm e (by simp)
  | request req =>
    simp only [ssrRequest]
    split
    · exact ssrInv_congr hm rfl rfl rfl rfl
    · exact ssrInv_congr hm rfl rfl rfl rfl
  | serverDone e => exact ssrInv_serverWatch hm e (by simp)

/-- A whole run keeps the invariant. -/
theorem ssrInv_run (evs : List SsrEvent) : ∀ (past : List SsrEvent) (s : SsrState),
    SsrInv past s → SsrInv (past ++ evs) (ssrRun s evs) := by
  induction evs with
  | nil => intro past s h; simpa [ssrRun] using h
  | cons ev evs ih =>
    intro past s h
    have ht := ssrInv_turn h ev
    have hassoc : past ++ ev :: evs = (past ++ [ev]) ++ evs := by simp
    rw [hassoc]
    unfold ssrRun
    cases hturn : ssrTurn s ev with
    | mk s1 thrown =>
      rw [hturn] at ht
      cases thrown with
      | some t => exact ssrInv_mono ht
      | none => exact ih _ _ ht

/-- C3. In SSR mode, from the start of the server and for every sequence of events, the
gate is resolved only if among the events there are a client build and a server build
that each completed with zero errors; and at every call of `ready` the variables
`bundle` and `tpl` held the output of such a build. -/
theorem ssr_gate_needs_both_builds (evs : List SsrEvent) :
    ((ssrRun {} evs).resolved = true →
      (∃ e ∈ evs, (clientOutput e).isSome) ∧ (∃ e ∈ evs, (serverOutput e).isSome)) ∧
    (∀ b t, (b, t) ∈ (ssrRun {} evs).readyCalls →
      (∃ e ∈ evs, ∃ x, serverOutput e = some x ∧ b = some x) ∧
      (∃ e ∈ evs, ∃ x, clientOutput e = some x ∧ t = some x)) := by
  have hinit : SsrInv [] ({} : SsrState) := by
    refine ⟨Or.inl rfl, Or.inl rfl, ?_, ?_⟩
    · intro bt hbt; cases hbt
    · intro h; cases h
  have h := ssrInv_run evs [] {} hinit
  rw [List.nil_append] at h
  obtain ⟨_, _, hr, hg⟩ := h
  constructor
  · intro hres
    obtain ⟨bt, hbt⟩ := List.exists_mem_of_ne_nil _ (hg hres)
    obtain ⟨⟨e1, he1, x1, hx1, _⟩, ⟨e2, he2, x2, hx2, _⟩⟩ := hr bt hbt
    exact ⟨⟨e2, he2, by simp [hx2]⟩, ⟨e1, he1, by simp [hx1]⟩⟩
  · intro b t hbt
    exact hr (b, t) hbt

/-- The witness of `ssr_gate_needs_both_builds`: after a client build and a server build
without errors the gate is resolved, and both builds are found among the events. -/
theorem ssr_gate_needs_both_builds_witness :
    (ssrRun {} [SsrEvent.clientDone ⟨[], [], "<html></html>".toList⟩,
        SsrEvent.serverDone ⟨none, some ⟨[], []⟩, "bundle".toList⟩]).resolved = true
    ∧ ((∃ e ∈ [SsrEvent.clientDone ⟨[], [], "<html></html>".toList⟩,
          SsrEvent.serverDone ⟨none, some ⟨[], []⟩, "bundle".toList⟩],
          (clientOutput e).isSome)
      ∧ (∃ e ∈ [SsrEvent.clientDone ⟨[], [], "<html></html>".toList⟩,
          SsrEvent.serverDone ⟨none, some ⟨[], []⟩, "bundle".toList⟩],
          (serverOutput e).isSome)) :=
  ⟨by decide,
   (ssr_gate_needs_both_builds [SsrEvent.clientDone ⟨[], [], "<html></html>".toList⟩,
      SsrEvent.serverDone ⟨none, some ⟨[], []⟩, "bundle".toList⟩]).1 (by decide)⟩

/-! ## Theorems: `render` and the template splices -/

/-- A replacement string without a dollar sign stands for itself. -/
theorem getSubstitution_without_dollar (matched pre post : JStr) :
    ∀ repl : JStr, dollar ∉ repl → getSubstitution matched pre post repl = repl := by
  intro repl
  induction repl with
  | nil => intro _; rfl
  | cons c rest ih =>
    intro h
    have hc : c ≠ dollar := fun hcd => h (by simp [hcd])
    have hrest : dollar ∉ rest := fun hr => h (List.mem_cons_of_mem _ hr)
    unfold getSubstitution
    rw [if_neg hc, ih hrest]

/-- No proper, non-empty end of the placeholder is a beginning of it. -/
theorem appPlaceholder_unbordered :
    ∀ k < appPlaceholder.length, 0 < k → (appPlaceholder.drop k).isPrefixOf appPlaceholder = false := by
  decide

/-- After a text that does not contain the placeholder, the first occurrence of the
placeholder is the one that follows the text. -/
theorem splitFirst_appPlaceholder (S : JStr) : ∀ P : JStr,
    splitFirst appPlaceholder P = none →
    splitFirst appPlaceholder (P ++ appPlaceholder ++ S) = some (P, S) := by
  intro P
  induction P with
  | nil =>
    intro _
    have hne : ([] : JStr) ++ appPlaceholder ++ S
        = '<' :: ("div id=\"app\"></div>".toList ++ S) := rfl
    rw [hne]
    simp only [splitFirst]
    have hp : appPlaceholder.isPrefixOf ('<' :: ("div id=\"app\"></div>".toList ++ S)) = true := by
      rw [List.isPrefixOf_iff_prefix]
      exact ⟨S, rfl⟩
    rw [if_pos hp]
    rfl
  | cons c P ih =>
    intro hP
    simp only [splitFirst] at hP
    split at hP
    · cases hP
    · rename_i hnot
      have hP2 : splitFirst appPlaceholder P = none := by
        cases hsp : splitFirst appPlaceholder P with
        | none => rfl
        | some pr => rw [hsp] at hP; cases hP
      have hgoal : (c :: P) ++ appPlaceholder ++ S = c :: (P ++ appPlaceholder ++ S) := rfl
      rw [hgoal]
      simp only [splitFirst]
      have hkey : ¬ appPlaceholder.isPrefixOf (c :: (P ++ appPlaceholder ++ S)) = true := by
        intro hpre
        rw [List.isPrefixOf_iff_prefix] at hpre
        have hPpre : (c :: P) <+: c :: (P ++ appPlaceholder ++ S) :=
          ⟨appPlaceholder ++ S, by simp⟩
        by_cases hlen : appPlaceholder.length ≤ (c :: P).length
        · have : appPlaceholder <+: c :: P :=
            List.prefix_of_prefix_length_le hpre hPpre hlen
          exact hnot (List.isPrefixOf_iff_prefix.mpr this)
        · have hlt : (c :: P).length < appPlaceholder.length := Nat.lt_of_not_le hlen
          obtain ⟨t, ht⟩ := List.prefix_of_prefix_length_le hPpre hpre (Nat.le_of_lt hlt)
          have hdrop : appPlaceholder.drop (c :: P).length = t := by
            rw [← ht]; simp
          have htpre : t <+: appPlaceholder := by
            have h1 : (c :: P) ++ t <+: (c :: P) ++ (appPlaceholder ++ S) := by
              rw [ht]
              simpa using hpre
            have h2 : t <+: appPlaceholder ++ S := (List.prefix_append_right_inj _).mp h1
            have h3 : appPlaceholder <+: appPlaceholder ++ S := List.prefix_append _ _
            have hlen2 : t.length ≤ appPlaceholder.length := by
              rw [← hdrop]; simp
            exact List.prefix_of_prefix_length_le h2 h3 hlen2
          have hb := appPlaceholder_unbordered (c :: P).length hlt (by simp)
          rw [hdrop] at hb
          rw [List.isPrefixOf_iff_prefix.mpr htpre] at hb
          cases hb
      rw [if_neg hkey, ih hP2]

/-- For a markup without a dollar sign, and a template whose part before the placeholder
does not contain the placeholder, line 173 builds the template with the markup wrapped in
the placeholder element. -/
theorem spliceApp_without_dollar (P S m : JStr)
    (hP : splitFirst appPlaceholder P = none) (hm : dollar ∉ m) :
    spliceApp (P ++ appPlaceholder ++ S) m
      = P ++ "<div id=\"app\">".toList ++ m ++ "</div>".toList ++ S := by
  unfold spliceApp jsReplace
  rw [splitFirst_appPlaceholder S P hP]
  simp only
  rw [getSubstitution_without_dollar]
  · simp
  · intro h
    rcases List.mem_append.mp h with h1 | h1
    · rcases List.mem_append.mp h1 with h2 | h2
      · revert h2; decide
      · exact hm h2
    · revert h1; decide

/-- C4 (fails on the code). When `renderToString` rejects, `render` sends the 500 answer
and then goes on with `res.status(200)` and `res.set(...)` for the spliced page; the
header write after the head was sent throws, so the promise of `render` rejects. -/
theorem render_goes_on_after_500 :
    (render (some "<html><body><div id=\"app\"></div></body></html>".toList)
        (some (fun _ => Except.ok
          { app := 0, routeName := RouteName.str "home".toList, metaData := none }))
        (fun _ => Except.error (Thrown.error "boom".toList)) "/x".toList).res.calls
      = [ResCall.status 500, ResCall.send (some "500 | Internal Server Error".toList),
         ResCall.status 200, ResCall.set "content-type".toList "text/html".toList]
    ∧ (render (some "<html><body><div id=\"app\"></div></body></html>".toList)
        (some (fun _ => Except.ok
          { app := 0, routeName := RouteName.str "home".toList, metaData := none }))
        (fun _ => Except.error (Thrown.error "boom".toList)) "/x".toList).rejected
      = some Thrown.headersSent := by
  decide

/-- C5. When the renderer resolves to `out` and `renderToString` resolves, every status
code `render` passes to `res.status` is 404 if the name of the current route is the
string `404` and 200 for any other name, `undefined` included; and with `template` set,
`render` makes exactly the calls `status`, `set`, `send`, `end` with that code. -/
theorem render_status_code (template : Option JStr) (renderer : Renderer)
    (renderToString : Nat → Except Thrown JStr) (url : JStr) (out : RendererOut)
    (markup : JStr) (hrenderer : renderer { url := url } = Except.ok out)
    (hmarkup : renderToString out.app = Except.ok markup) :
    (∀ code, ResCall.status code ∈ (render template (some renderer) renderToString url).res.calls →
      code = if out.routeName = RouteName.str "404".toList then 404 else 200) ∧
    (∀ tpl, template = some tpl →
      (render template (some renderer) renderToString url).res.calls
        = [ResCall.status (if out.routeName = RouteName.str "404".toList then 404 else 200),
           ResCall.set "content-type".toList "text/html".toList,
           ResCall.send (some (insertMeta out.metaData (spliceApp tpl markup))),
           ResCall.end_] ∧
      (render template (some renderer) renderToString url).rejected = none) := by
  cases template with
  | none =>
    constructor
    · intro code h
      simp [render, hrenderer, hmarkup] at h
    · intro tpl h
      cases h
  | some tpl =>
    have hcalls : (render (some tpl) (some renderer) renderToString url).res.calls
        = [ResCall.status (if out.routeName = RouteName.str "404".toList then 404 else 200),
           ResCall.set "content-type".toList "text/html".toList,
           ResCall.send (some (insertMeta out.metaData (spliceApp tpl markup))),
           ResCall.end_] := by
      simp [render, hrenderer, hmarkup, Res.status, Res.set, Res.send, Res.end_, statusCode,
        interpolate]
    constructor
    · intro code h
      rw [hcalls] at h
      simpa using h
    · intro tpl2 h
      cases h
      refine ⟨hcalls, ?_⟩
      simp [render, hrenderer, hmarkup, Res.status, Res.set, Res.send, Res.end_]

/-- The witness of `render_status_code`: a route named `404` is answered with status 404,
a route without a name with status 200. -/
theorem render_status_code_witness :
    (render (some "<div id=\"app\"></div>".toList)
        (some (fun _ => Except.ok
          { app := 0, routeName := RouteName.str "404".toList, metaData := none }))
        (fun _ => Except.ok "gone".toList) "/x".toList).res.calls
      = [ResCall.status 404, ResCall.set "content-type".toList "text/html".toList,
         ResCall.send (some "<div id=\"app\">gone</div>".toList), ResCall.end_]
    ∧ (render (some "<div id=\"app\"></div>".toList)
        (some (fun _ => Except.ok
          { app := 0, routeName := RouteName.undefined, metaData := none }))
        (fun _ => Except.ok "home".toList) "/".toList).res.calls
      = [ResCall.status 200, ResCall.set "content-type".toList "text/html".toList,
         ResCall.send (some "<div id=\"app\">home</div>".toList), ResCall.end_] :=
  ⟨((render_status_code (some "<div id=\"app\"></div>".toList)
      (fun _ => Except.ok { app := 0, routeName := RouteName.str "404".toList, metaData := none })
      (fun _ => Except.ok "gone".toList) "/x".toList
      { app := 0, routeName := RouteName.str "404".toList, metaData := none } "gone".toList
      rfl rfl).2 _ rfl).1,
   ((render_status_code (some "<div id=\"app\"></div>".toList)
      (fun _ => Except.ok { app := 0, routeName := RouteName.undefined, metaData := none })
      (fun _ => Except.ok "home".toList) "/".toList
      { app := 0, routeName := RouteName.undefined, metaData := none } "home".toList
      rfl rfl).2 _ rfl).1⟩

/-- C6 (fails on the code). With the markup `<p>$$$</p>` the replacement pattern `$$` is
expanded to one dollar sign, and with the markup `<p>$&</p>` the pattern `$&` is expanded
to the placeholder: in both cases the page is not the template with the markup wrapped,
although the part of the template before the placeholder does not contain it. -/
theorem splice_expands_dollar_patterns :
    spliceApp ("<main>".toList ++ appPlaceholder ++ "</main>".toList) "<p>$$$</p>".toList
      = "<main><div id=\"app\"><p>$$</p></div></main>".toList
    ∧ spliceApp ("<main>".toList ++ appPlaceholder ++ "</main>".toList) "<p>$$$</p>".toList
      ≠ "<main>".toList ++ "<div id=\"app\">".toList ++ "<p>$$$</p>".toList
          ++ "</div>".toList ++ "</main>".toList
    ∧ spliceApp ("<main>".toList ++ appPlaceholder ++ "</main>".toList) "<p>$&</p>".toList
      = "<main><div id=\"app\"><p><div id=\"app\"></div></p></div></main>".toList
    ∧ spliceApp ("<main>".toList ++ appPlaceholder ++ "</main>".toList) "<p>$&</p>".toList
      ≠ "<main>".toList ++ "<div id=\"app\">".toList ++ "<p>$&</p>".toList
          ++ "</div>".toList ++ "</main>".toList
    ∧ splitFirst appPlaceholder "<main>".toList = none := by
  decide

/-- C7 (fails on the code). The head fragment contains the text `</body>`; the fourth
`replace` finds it there first, so the body fragment lands inside the head fragment and
not before the closing tag of the template. And a head fragment with the title `$$$`
is inserted with the title `$$`. -/
theorem insert_meta_hits_inserted_text :
    insertMeta
        (some { htmlAttr := "lang=\"en\"".toList, head := "<!-- </body> -->".toList,
                bodyAttr := "class=\"a\"".toList, body := "<script></script>".toList })
        "<html><head></head><body></body></html>".toList
      = ("<html lang=\"en\"><head><!-- <script></script></body> --></head>"
          ++ "<body class=\"a\"></body></html>").toList
    ∧ insertMeta
        (some { htmlAttr := "lang=\"en\"".toList, head := "<!-- </body> -->".toList,
                bodyAttr := "class=\"a\"".toList, body := "<script></script>".toList })
        "<html><head></head><body></body></html>".toList
      ≠ "".toList ++ "<html ".toList ++ "lang=\"en\"".toList ++ ">".toList
          ++ "<head>".toList ++ "<!-- </body> -->".toList ++ "</head>".toList
          ++ "<body ".toList ++ "class=\"a\"".toList ++ ">".toList
          ++ "<script></script>".toList ++ "</body>".toList ++ "</html>".toList
    ∧ insertMeta
        (some { htmlAttr := "".toList, head := "<title>$$$</title>".toList,
                bodyAttr := "".toList, body := "".toList })
        "<html><head></head><body></body></html>".toList
      = "<html ><head><title>$$</title></head><body ></body></html>".toList := by
  decide

/-! ## Theorems: the boot-entry loop -/

/-- C10 (fails on the code). On the server, with `ctx.url` equal to `/%2541` and two
string entries, the first default export receives `/%41`, which is `decodeURI` applied
once, and the second receives `/A`, which is `decodeURI` applied twice; the same holds
when the two handlers resume in the other order. -/
theorem second_entry_receives_twice_decoded_url :
    decodeURI "/%2541".toList = Except.ok "/%41".toList
    ∧ (bootRun true [] (some "/%2541".toList)
        [BootEntry.path "a".toList, BootEntry.path "b".toList]).outcomes
      = [(BootEntry.path "a".toList, Outcome.invoked "a".toList (some "/%41".toList)),
         (BootEntry.path "b".toList, Outcome.invoked "b".toList (some "/A".toList))]
    ∧ (resumeAll true [] [BootEntry.path "b".toList, BootEntry.path "a".toList]
        (forEachBoot true [] [BootEntry.path "a".toList, BootEntry.path "b".toList]
          { ctx := some "/%2541".toList }).1).outcomes
      = [(BootEntry.path "b".toList, Outcome.invoked "b".toList (some "/%41".toList)),
         (BootEntry.path "a".toList, Outcome.invoked "a".toList (some "/A".toList))] := by
  decide

/-- C8 (counterexample). On the server, with `ctx.url` equal to `/%`, the string entry
`a` is imported, `decodeURI` throws, and no default export is invoked. And an object
entry whose own property `server` is the number 1, which is not the value `true`, is
imported and invoked. -/
theorem boot_rule_fails_on_malformed_url_and_truthy_flag :
    (bootRun true [] (some "/%".toList) [BootEntry.path "a".toList]).imports = ["a".toList]
    ∧ (bootRun true [] (some "/%".toList) [BootEntry.path "a".toList]).outcomes
      = [(BootEntry.path "a".toList, Outcome.rejected Thrown.uriError)]
    ∧ (bootRun true [] (some "/x".toList)
        [BootEntry.object "a".toList (some (JsValue.number 1)) none]).outcomes
      = [(BootEntry.object "a".toList (some (JsValue.number 1)) none,
          Outcome.invoked "a".toList (some "/x".toList))]
    ∧ JsValue.number 1 ≠ JsValue.bool true := by
  decide

/-- Lines 57-65 add one outcome for the entry and start no import. -/
theorem decodeAndInvoke_spec (entry : BootEntry) (module : Option JStr) (s : BootState) :
    (decodeAndInvoke entry module s).imports = s.imports ∧
    ∃ o, (decodeAndInvoke entry module s).outcomes = s.outcomes ++ [(entry, o)]
      ∧ ((∃ t, o = Outcome.rejected t) ∨ (module = none ∧ o = Outcome.skipped) ∨
          (∃ p url, module = some p ∧ o = Outcome.invoked p url)) := by
  unfold decodeAndInvoke
  split
  · refine ⟨rfl, _, rfl, ?_⟩
    cases module with
    | none => exact Or.inr (Or.inl ⟨rfl, rfl⟩)
    | some m => exact Or.inr (Or.inr ⟨m, none, rfl, rfl⟩)
  · split
    · rename_i t _
      exact ⟨rfl, _, rfl, Or.inl ⟨t, rfl⟩⟩
    · rename_i decoded _
      refine ⟨rfl, _, rfl, ?_⟩
      cases module with
      | none => exact Or.inr (Or.inl ⟨rfl, rfl⟩)
      | some m => exact Or.inr (Or.inr ⟨m, some decoded, rfl, rfl⟩)

/-- The end of a handler adds one outcome for its entry and starts no import. -/
theorem finishHandler_spec (isSSR : Bool) (documentURI : JStr) (entry : BootEntry)
    (module : Option JStr) (s : BootState) :
    (finishHandler isSSR documentURI entry module s).imports = s.imports ∧
    ∃ o, (finishHandler isSSR documentURI entry module s).outcomes = s.outcomes ++ [(entry, o)]
      ∧ EndsWell entry module o := by
  cases entry with
  | null => exact ⟨rfl, _, rfl, Or.inl ⟨rfl, rfl⟩⟩
  | path p =>
    obtain ⟨hi, o, ho, hw⟩ := decodeAndInvoke_spec (BootEntry.path p) module s
    exact ⟨hi, o, ho, Or.inr ⟨(by intro h; cases h), hw⟩⟩
  | other =>
    obtain ⟨hi, o, ho, hw⟩ := decodeAndInvoke_spec BootEntry.other module s
    exact ⟨hi, o, ho, Or.inr ⟨(by intro h; cases h), hw⟩⟩
  | object p server client =>
    cases isSSR with
    | true =>
      obtain ⟨hi, o, ho, hw⟩ :=
        decodeAndInvoke_spec (BootEntry.object p server client) module s
      exact ⟨hi, o, ho, Or.inr ⟨(by intro h; cases h), hw⟩⟩
    | false =>
      obtain ⟨hi, o, ho, hw⟩ :=
        decodeAndInvoke_spec (BootEntry.object p server client) module
          { s with ctx := some documentURI }
      exact ⟨hi, o, ho, Or.inr ⟨(by intro h; cases h), hw⟩⟩

/-- The handlers that resume add one outcome each, in the order in which they resume,
and start no import. -/
theorem resumeAll_spec (isSSR : Bool) (documentURI : JStr) (pending : List BootEntry) :
    ∀ s : BootState,
    (resumeAll isSSR documentURI pending s).imports = s.imports ∧
    ∃ os : List (BootEntry × Outcome),
      (resumeAll isSSR documentURI pending s).outcomes = s.outcomes ++ os ∧
      os.map Prod.fst = pending ∧
      ∀ eo ∈ os, EndsWell eo.1 (awaitedImport isSSR eo.1) eo.2 := by
  induction pending with
  | nil =>
    intro s
    exact ⟨rfl, [], by simp [resumeAll], rfl, by intro eo h; cases h⟩
  | cons entry rest ih =>
    intro s
    obtain ⟨hi, o, ho, hw⟩ :=
      finishHandler_spec isSSR documentURI entry (awaitedImport isSSR entry) s
    obtain ⟨hi2, os, hos, hmap, hall⟩ :=
      ih (finishHandler isSSR documentURI entry (awaitedImport isSSR entry) s)
    refine ⟨?_, (entry, o) :: os, ?_, ?_, ?_⟩
    · simp only [resumeAll]; rw [hi2, hi]
    · simp only [resumeAll]; rw [hos, ho]; simp
    · simp [hmap]
    · intro eo heo
      rcases List.mem_cons.mp heo with h | h
      · rw [h]; exact hw
      · exact hall eo h

/-- The `forEach` starts the imports of the entries that await one, in list order,
suspends their handlers, and ends the handlers of the other entries. -/
theorem forEachBoot_spec (isSSR : Bool) (documentURI : JStr) (boot : List BootEntry) :
    ∀ s : BootState,
    (forEachBoot isSSR documentURI boot s).1.imports
      = s.imports ++ boot.filterMap (awaitedImport isSSR) ∧
    (forEachBoot isSSR documentURI boot s).2
      = boot.filter (fun e => (awaitedImport isSSR e).isSome) ∧
    ∃ os : List (BootEntry × Outcome),
      (forEachBoot isSSR documentURI boot s).1.outcomes = s.outcomes ++ os ∧
      os.map Prod.fst = boot.filter (fun e => !(awaitedImport isSSR e).isSome) ∧
      ∀ eo ∈ os, EndsWell eo.1 (awaitedImport isSSR eo.1) eo.2 := by
  induction boot with
  | nil =>
    intro s
    exact ⟨by simp [forEachBoot], rfl, [], by simp [forEachBoot], rfl, by intro eo h; cases h⟩
  | cons entry rest ih =>
    intro s
    cases ha : awaitedImport isSSR entry with
    | some p =>
      obtain ⟨hi, hp, os, hos, hmap, hall⟩ := ih { s with imports := s.imports ++ [p] }
      refine ⟨?_, ?_, os, ?_, ?_, hall⟩
      · simp only [forEachBoot, ha]; rw [hi]; simp [ha]
      · simp only [forEachBoot, ha]; rw [hp]; simp [ha]
      · simp only [forEachBoot, ha]; rw [hos]
      · rw [hmap]; simp [ha]
    | none =>
      obtain ⟨hi0, o, ho, hw⟩ := finishHandler_spec isSSR documentURI entry none s
      obtain ⟨hi, hp, os, hos, hmap, hall⟩ :=
        ih (finishHandler isSSR documentURI entry none s)
      refine ⟨?_, ?_, (entry, o) :: os, ?_, ?_, ?_⟩
      · simp only [forEachBoot, ha]; rw [hi, hi0]; simp [ha]
      · simp only [forEachBoot, ha]; rw [hp]; simp [ha]
      · simp only [forEachBoot, ha]; rw [hos, ho]; simp
      · simp [hmap, ha]
      · intro eo heo
        rcases List.mem_cons.mp heo with h | h
        · rw [h, ha]; exact hw
        · exact hall eo h

/-- The whole loop: the imports started are those of the entries that await one, every
entry has exactly one outcome, and every outcome ends well. -/
theorem bootRun_spec (isSSR : Bool) (documentURI : JStr) (ctx : Option JStr)
    (boot : List BootEntry) :
    (bootRun isSSR documentURI ctx boot).imports = boot.filterMap (awaitedImport isSSR) ∧
    List.Perm ((bootRun isSSR documentURI ctx boot).outcomes.map Prod.fst) boot ∧
    ∀ eo ∈ (bootRun isSSR documentURI ctx boot).outcomes,
      EndsWell eo.1 (awaitedImport isSSR eo.1) eo.2 := by
  obtain ⟨hi, hp, os, hos, hmap, hall⟩ :=
    forEachBoot_spec isSSR documentURI boot { ctx := ctx }
  obtain ⟨hi2, os2, hos2, hmap2, hall2⟩ :=
    resumeAll_spec isSSR documentURI (forEachBoot isSSR documentURI boot { ctx := ctx }).2
      (forEachBoot isSSR documentURI boot { ctx := ctx }).1
  have hout : (bootRun isSSR documentURI ctx boot).outcomes = os ++ os2 := by
    simp only [bootRun]; rw [hos2, hos]; simp
  refine ⟨?_, ?_, ?_⟩
  · simp only [bootRun]; rw [hi2, hi]; simp
  · rw [hout, List.map_append, hmap, hmap2, hp]
    have h := List.filter_append_perm (fun e => (awaitedImport isSSR e).isSome) boot
    exact (List.perm_append_comm).trans h
  · intro eo heo
    rw [hout] at heo
    rcases List.mem_append.mp heo with h | h
    · exact hall eo h
    · exact hall2 eo h

/-- A text that `decodeURI` returns unchanged after one decoding is one on which
`decodeURI` returns. -/
theorem decodes_of_decodeStable {url : JStr} (h : decodeStable url = true) :
    decodes url = true := by
  unfold decodeStable at h
  unfold decodes
  cases hd : decodeURI url with
  | ok d => rfl
  | error t => rw [hd] at h; cases h

/-- Lines 57-65 do not reject when `decodeURI` returns on the `url` that `ctx` holds. -/
theorem decodeAndInvoke_clean (entry : BootEntry) (module : Option JStr) (s : BootState)
    (hctx : ∀ v, s.ctx = some v → decodes v = true) (hs : NoneRejected s.outcomes) :
    NoneRejected (decodeAndInvoke entry module s).outcomes := by
  have hnew : ∀ (o : Outcome) (os : List (BootEntry × Outcome)), os = s.outcomes ++ [(entry, o)] →
      (∀ t, o ≠ Outcome.rejected t) → NoneRejected os := by
    intro o os hos ho eo heo hne t
    rw [hos] at heo
    rcases List.mem_append.mp heo with h | h
    · exact hs eo h hne t
    · have : eo = (entry, o) := by simpa using h
      rw [this]; exact ho t
  unfold decodeAndInvoke
  split
  · apply hnew _ _ rfl
    intro t
    cases module <;> intro h <;> cases h
  · rename_i url hurl
    have hdec := hctx url hurl
    unfold decodes at hdec
    split
    · rename_i t herr
      rw [herr] at hdec
      cases hdec
    · apply hnew _ _ rfl
      intro t
      cases module <;> intro h <;> cases h

/-- Lines 57-65 leave in `ctx` a `url` that `decodeURI` returns unchanged, when they find
such a `url` or one that becomes such by one decoding. -/
theorem decodeAndInvoke_stable (entry : BootEntry) (module : Option JStr) (s : BootState)
    (hctx : ∀ v, s.ctx = some v → decodeStable v = true) :
    ∀ v, (decodeAndInvoke entry module s).ctx = some v → decodeStable v = true := by
  unfold decodeAndInvoke
  split
  · rename_i hnone
    intro v hv
    exact hctx v hv
  · rename_i url hurl
    have hst := hctx url hurl
    split
    · intro v hv
      exact hctx v hv
    · rename_i decoded hok
      intro v hv
      have hvd : v = decoded := by
        have : some decoded = some v := hv
        cases this; rfl
      subst hvd
      unfold decodeStable at hst
      rw [hok] at hst
      have hfix : decodeURI v = Except.ok v := by simpa using hst
      unfold decodeStable
      rw [hfix]
      simp [hfix]

/-- The end of a handler does not reject, except for `null`, when `decodeURI` returns on
the `url` it decodes. -/
theorem finishHandler_clean (isSSR : Bool) (documentURI : JStr) (entry : BootEntry)
    (module : Option JStr) (s : BootState)
    (hctx : ∀ v, s.ctx = some v → decodes v = true)
    (hdoc : ∀ p server client, entry = BootEntry.object p server client → isSSR = false →
      decodes documentURI = true)
    (hs : NoneRejected s.outcomes) :
    NoneRejected (finishHandler isSSR documentURI entry module s).outcomes := by
  cases entry with
  | null =>
    intro eo heo hne t
    have heo2 : eo ∈ s.outcomes ++ [(BootEntry.null, Outcome.rejected Thrown.typeError)] := heo
    rcases List.mem_append.mp heo2 with h | h
    · exact hs eo h hne t
    · have : eo = (BootEntry.null, Outcome.rejected Thrown.typeError) := by simpa using h
      rw [this] at hne
      exact absurd rfl hne
  | path p => exact decodeAndInvoke_clean _ module s hctx hs
  | other => exact decodeAndInvoke_clean _ module s hctx hs
  | object p server client =>
    cases isSSR with
    | true => exact decodeAndInvoke_clean _ module s hctx hs
    | false =>
      apply decodeAndInvoke_clean _ module { s with ctx := some documentURI } _ hs
      intro v hv
      have : documentURI = v := by
        have h2 : some documentURI = some v := hv
        cases h2; rfl
      rw [← this]
      exact hdoc p server client rfl rfl

/-- The end of a handler leaves in `ctx` a `url` that `decodeURI` returns unchanged. -/
theorem finishHandler_stable (isSSR : Bool) (documentURI : JStr) (entry : BootEntry)
    (module : Option JStr) (s : BootState)
    (hctx : ∀ v, s.ctx = some v → decodeStable v = true)
    (hdoc : ∀ p server client, entry = BootEntry.object p server client → isSSR = false →
      decodeStable documentURI = true) :
    ∀ v, (finishHandler isSSR documentURI entry module s).ctx = some v →
      decodeStable v = true := by
  cases entry with
  | null => exact hctx
  | path p => exact decodeAndInvoke_stable _ module s hctx
  | other => exact decodeAndInvoke_stable _ module s hctx
  | object p server client =>
    cases isSSR with
    | true => exact decodeAndInvoke_stable _ module s hctx
    | false =>
      apply decodeAndInvoke_stable _ module { s with ctx := some documentURI }
      intro v hv
      have : documentURI = v := by
        have h2 : some documentURI = some v := hv
        cases h2; rfl
      rw [← this]
      exact hdoc p server client rfl rfl

/-- The handlers that resume do not reject, except for `null`, when every `url` they
start from is returned unchanged by `decodeURI` after one decoding. -/
theorem resumeAll_clean (isSSR : Bool) (documentURI : JStr) (pending : List BootEntry) :
    ∀ s : BootState,
    (∀ v, s.ctx = some v → decodeStable v = true) →
    (∀ p server client, BootEntry.object p server client ∈ pending → isSSR = false →
      decodeStable documentURI = true) →
    NoneRejected s.outcomes →
    NoneRejected (resumeAll isSSR documentURI pending s).outcomes := by
  induction pending with
  | nil => intro s _ _ hs; exact hs
  | cons entry rest ih =>
    intro s hctx hdoc hs
    simp only [resumeAll]
    have hdoc1 : ∀ p server client, entry = BootEntry.object p server client →
        isSSR = false → decodeStable documentURI = true := by
      intro p server client he hside
      exact hdoc p server client (by rw [he]; exact List.mem_cons_self _ _) hside
    apply ih
    · exact finishHandler_stable isSSR documentURI entry _ s hctx hdoc1
    · intro p server client hmem hside
      exact hdoc p server client (List.mem_cons_of_mem _ hmem) hside
    · apply finishHandler_clean isSSR documentURI entry _ s _ _ hs
      · intro v hv; exact decodes_of_decodeStable (hctx v hv)
      · intro p server client he hside
        exact decodes_of_decodeStable (hdoc1 p server client he hside)

/-- The `forEach` rejects no handler, except for `null`, and leaves in `ctx` a `url` that
`decodeURI` returns unchanged, when every `url` the handlers start from is returned
unchanged by `decodeURI` after one decoding. -/
theorem forEachBoot_clean (isSSR : Bool) (documentURI : JStr) (boot : List BootEntry) :
    ∀ s : BootState,
    (∀ v, s.ctx = some v → decodeStable v = true) →
    (∀ p server client, BootEntry.object p server client ∈ boot → isSSR = false →
      decodeStable documentURI = true) →
    NoneRejected s.outcomes →
    (∀ v, (forEachBoot isSSR documentURI boot s).1.ctx = some v → decodeStable v = true) ∧
    NoneRejected (forEachBoot isSSR documentURI boot s).1.outcomes := by
  induction boot with
  | nil => intro s hctx _ hs; exact ⟨hctx, hs⟩
  | cons entry rest ih =>
    intro s hctx hdoc hs
    have hdocrest : ∀ p server client, BootEntry.object p server client ∈ rest →
        isSSR = false → decodeStable documentURI = true := by
      intro p server client hmem hside
      exact hdoc p server client (List.mem_cons_of_mem _ hmem) hside
    have hdoc1 : ∀ p server client, entry = BootEntry.object p server client →
        isSSR = false → decodeStable documentURI = true := by
      intro p server client he hside
      exact hdoc p server client (by rw [he]; exact List.mem_cons_self _ _) hside
    cases ha : awaitedImport isSSR entry with
    | some p =>
      simp only [forEachBoot, ha]
      exact ih { s with imports := s.imports ++ [p] } hctx hdocrest hs
    | none =>
      simp only [forEachBoot, ha]
      apply ih
      · exact finishHandler_stable isSSR documentURI entry none s hctx hdoc1
      · exact hdocrest
      · apply finishHandler_clean isSSR documentURI entry none s _ _ hs
        · intro v hv; exact decodes_of_decodeStable (hctx v hv)
        · intro p server client he hside
          exact decodes_of_decodeStable (hdoc1 p server client he hside)

/-- The whole loop rejects no handler, except for `null`, when `decodeURI` returns on
every `url` the handlers start from and, for a list of more than one entry, returns the
decoded text unchanged. -/
theorem bootRun_clean (isSSR : Bool) (documentURI : JStr) (ctx : Option JStr)
    (boot : List BootEntry)
    (hctx : ∀ u, ctx = some u →
      decodeStable u = true ∨ (boot.length ≤ 1 ∧ decodes u = true))
    (hdoc : isSSR = false → (∃ p server client, BootEntry.object p server client ∈ boot) →
      decodeStable documentURI = true ∨ (boot.length ≤ 1 ∧ decodes documentURI = true)) :
    NoneRejected (bootRun isSSR documentURI ctx boot).outcomes := by
  have hempty : NoneRejected ([] : List (BootEntry × Outcome)) := by
    intro eo heo; cases heo
  by_cases hlen : boot.length ≤ 1
  · have hc : ∀ v, ctx = some v → decodes v = true := by
      intro v hv
      rcases hctx v hv with h | h
      · exact decodes_of_decodeStable h
      · exact h.2
    match boot, hlen, hdoc with
    | [], _, _ => exact hempty
    | [e], _, hdoc =>
      have hd : ∀ p server client, e = BootEntry.object p server client → isSSR = false →
          decodes documentURI = true := by
        intro p server client he hside
        rcases hdoc hside ⟨p, server, client, by rw [he]; exact List.mem_singleton_self _⟩
          with h | h
        · exact decodes_of_decodeStable h
        · exact h.2
      cases ha : awaitedImport isSSR e with
      | some p =>
        simp only [bootRun, forEachBoot, ha, resumeAll]
        exact finishHandler_clean isSSR documentURI e (some p)
          { ctx := ctx, imports := [] ++ [p] } hc hd hempty
      | none =>
        simp only [bootRun, forEachBoot, ha, resumeAll]
        exact finishHandler_clean isSSR documentURI e none { ctx := ctx } hc hd hempty
    | _ :: _ :: _, hlen, _ => simp at hlen
  · have hc : ∀ v, ctx = some v → decodeStable v = true := by
      intro v hv
      rcases hctx v hv with h | h
      · exact h
      · exact absurd h.1 hlen
    have hd : ∀ p server client, BootEntry.object p server client ∈ boot → isSSR = false →
        decodeStable documentURI = true := by
      intro p server client hmem hside
      rcases hdoc hside ⟨p, server, client, hmem⟩ with h | h
      · exact h
      · exact absurd h.1 hlen
    obtain ⟨hst, hcl⟩ := forEachBoot_clean isSSR documentURI boot { ctx := ctx } hc hd hempty
    obtain ⟨_, hpend, _⟩ := forEachBoot_spec isSSR documentURI boot { ctx := ctx }
    simp only [bootRun]
    apply resumeAll_clean isSSR documentURI _ _ hst _ hcl
    intro p server client hmem hside
    rw [hpend] at hmem
    exact hd p server client (List.mem_of_mem_filter hmem) hside

/-- C8 (amended). Provided `decodeURI` returns on the `url` the handlers start from
(`ctx.url` as passed in, and `document.documentURI` for the object entries on the
client), and, where the list has more than one entry, returns the decoded text unchanged
when applied again: every entry has exactly one outcome; a string entry is imported and
its default export invoked, on both sides; an object entry with no own property for the
side is imported and invoked; an object entry with that property is invoked if and only
if the value is truthy, which for a boolean is the value `true`, and is imported then; an
entry that does not load is not invoked: a falsy flag and a value of another type end
without a call, `null` ends with a `TypeError`. -/
theorem boot_entry_load_rule (isSSR : Bool) (documentURI : JStr) (ctx : Option JStr)
    (boot : List BootEntry) (e : BootEntry) (o : Outcome)
    (hctx : ∀ u, ctx = some u →
      decodeStable u = true ∨ (boot.length ≤ 1 ∧ decodes u = true))
    (hdoc : isSSR = false → (∃ p server client, BootEntry.object p server client ∈ boot) →
      decodeStable documentURI = true ∨ (boot.length ≤ 1 ∧ decodes documentURI = true))
    (h : (e, o) ∈ (bootRun isSSR documentURI ctx boot).outcomes) :
    List.Perm ((bootRun isSSR documentURI ctx boot).outcomes.map Prod.fst) boot ∧
    (∀ p, e = BootEntry.path p →
      p ∈ (bootRun isSSR documentURI ctx boot).imports ∧ ∃ url, o = Outcome.invoked p url) ∧
    (∀ p server client, e = BootEntry.object p server client →
      (if isSSR then server else client) = none →
      p ∈ (bootRun isSSR documentURI ctx boot).imports ∧ ∃ url, o = Outcome.invoked p url) ∧
    (∀ p server client flag, e = BootEntry.object p server client →
      (if isSSR then server else client) = some flag →
      ((∃ url, o = Outcome.invoked p url) ↔ flag.truthy = true) ∧
      (flag.truthy = true → p ∈ (bootRun isSSR documentURI ctx boot).imports) ∧
      (flag.truthy = false → o = Outcome.skipped)) ∧
    (∀ p server client b, e = BootEntry.object p server client →
      (if isSSR then server else client) = some (JsValue.bool b) →
      ((∃ url, o = Outcome.invoked p url) ↔ b = true)) ∧
    (e = BootEntry.null → o = Outcome.rejected Thrown.typeError) ∧
    (e = BootEntry.other → o = Outcome.skipped) := by
  obtain ⟨himp, hperm, hall⟩ := bootRun_spec isSSR documentURI ctx boot
  have hclean := bootRun_clean isSSR documentURI ctx boot hctx hdoc
  have hmem : e ∈ boot := by
    have : e ∈ (bootRun isSSR documentURI ctx boot).outcomes.map Prod.fst :=
      List.mem_map.mpr ⟨(e, o), h, rfl⟩
    exact hperm.mem_iff.mp this
  have hends := hall (e, o) h
  -- what the outcome is for an entry other than `null`
  have hcase : e ≠ BootEntry.null →
      (awaitedImport isSSR e = none ∧ o = Outcome.skipped) ∨
      (∃ p url, awaitedImport isSSR e = some p ∧ o = Outcome.invoked p url) := by
    intro hne
    rcases hends with ⟨hnull, _⟩ | ⟨_, ⟨t, ht⟩ | h2⟩
    · exact absurd hnull hne
    · exact absurd ht (hclean (e, o) h hne t)
    · exact h2
  have himport : ∀ p, awaitedImport isSSR e = some p →
      p ∈ (bootRun isSSR documentURI ctx boot).imports := by
    intro p hp
    rw [himp]
    exact List.mem_filterMap.mpr ⟨e, hmem, hp⟩
  have hflag : ∀ p server client flag, e = BootEntry.object p server client →
      (if isSSR then server else client) = some flag →
      ((∃ url, o = Outcome.invoked p url) ↔ flag.truthy = true) ∧
      (flag.truthy = true → p ∈ (bootRun isSSR documentURI ctx boot).imports) ∧
      (flag.truthy = false → o = Outcome.skipped) := by
    intro p server client flag hp hfl
    subst hp
    have hne : BootEntry.object p server client ≠ BootEntry.null := by intro hx; cases hx
    cases htr : flag.truthy with
    | true =>
      have ha : awaitedImport isSSR (BootEntry.object p server client) = some p := by
        simp [awaitedImport, hfl, htr]
      refine ⟨⟨fun _ => rfl, fun _ => ?_⟩, fun _ => himport p ha, fun hf => (by cases hf)⟩
      rcases hcase hne with ⟨hn, _⟩ | ⟨q, url, hq, ho⟩
      · rw [ha] at hn; cases hn
      · rw [ha] at hq; cases hq; exact ⟨url, ho⟩
    | false =>
      have ha : awaitedImport isSSR (BootEntry.object p server client) = none := by
        simp [awaitedImport, hfl, htr]
      have hsk : o = Outcome.skipped := by
        rcases hcase hne with ⟨_, ho⟩ | ⟨q, url2, hq, _⟩
        · exact ho
        · rw [ha] at hq; cases hq
      refine ⟨⟨fun hinv => ?_, fun hf => (by cases hf)⟩, fun hf => (by cases hf), fun _ => hsk⟩
      obtain ⟨url, hurl⟩ := hinv
      rw [hsk] at hurl; cases hurl
  refine ⟨hperm, ?_, ?_, hflag, ?_, ?_, ?_⟩
  · intro p hp
    subst hp
    have ha : awaitedImport isSSR (BootEntry.path p) = some p := rfl
    refine ⟨himport p ha, ?_⟩
    rcases hcase (by intro hx; cases hx) with ⟨hn, _⟩ | ⟨q, url, hq, ho⟩
    · rw [ha] at hn; cases hn
    · rw [ha] at hq; cases hq; exact ⟨url, ho⟩
  · intro p server client hp hfl
    subst hp
    have ha : awaitedImport isSSR (BootEntry.object p server client) = some p := by
      simp [awaitedImport, hfl]
    refine ⟨himport p ha, ?_⟩
    rcases hcase (by intro hx; cases hx) with ⟨hn, _⟩ | ⟨q, url, hq, ho⟩
    · rw [ha] at hn; cases hn
    · rw [ha] at hq; cases hq; exact ⟨url, ho⟩
  · intro p server client b hp hfl
    have h1 := (hflag p server client (JsValue.bool b) hp hfl).1
    simpa [JsValue.truthy] using h1
  · intro hnull
    rcases hends with ⟨_, ho⟩ | ⟨hne, _⟩
    · exact ho
    · exact absurd hnull hne
  · intro hother
    subst hother
    rcases hcase (by intro hx; cases hx) with ⟨_, ho⟩ | ⟨q, url, hq, _⟩
    · exact ho
    · have ha : awaitedImport isSSR BootEntry.other = none := rfl
      rw [ha] at hq; cases hq

/-- The witness of `boot_entry_load_rule`: on the server, with the `url` `/a%20b`, an
object entry with `server: false` is skipped and the string entry after it is imported
and invoked. -/
theorem boot_entry_load_rule_witness :
    ((BootEntry.path "b".toList, Outcome.invoked "b".toList (some "/a b".toList))
        ∈ (bootRun true [] (some "/a%20b".toList)
            [BootEntry.object "a".toList (some (JsValue.bool false)) none,
             BootEntry.path "b".toList]).outcomes)
    ∧ "b".toList ∈ (bootRun true [] (some "/a%20b".toList)
        [BootEntry.object "a".toList (some (JsValue.bool false)) none,
         BootEntry.path "b".toList]).imports
    ∧ ∃ url, Outcome.invoked "b".toList (some "/a b".toList) = Outcome.invoked "b".toList url :=
  ⟨by decide,
   ((boot_entry_load_rule true [] (some "/a%20b".toList)
      [BootEntry.object "a".toList (some (JsValue.bool false)) none, BootEntry.path "b".toList]
      (BootEntry.path "b".toList) (Outcome.invoked "b".toList (some "/a b".toList))
      (by intro u hu; cases hu; exact Or.inl (by decide))
      (by intro hside; cases hside)
      (by decide)).2.1 "b".toList rfl)⟩

end Alvori
